import Mathlib

/-! Formal model of the ROCKET sequential PPP estimators
(src/lib/deprecate/SolverPPPUC.cpp, src/lib/deprecate/SolverUpdNL.cpp and
src/lib/dev/Variable.hpp): the information-form Kalman measurement update,
the Variable-keyed state and covariance carry-forward, the
ambiguity-constraint injection and the per-epoch equation assembly,
together with theorems settling the specification's claims about them.
Real (double) arithmetic is embedded as exact rational arithmetic. -/

namespace Rocket

open Matrix

/-- Typed error thrown by the solvers' numeric routines
(`InvalidSolver` in SolverPPPUC.cpp / SolverUpdNL.cpp). -/
inductive SolverErr where
  | invalidSolver
deriving DecidableEq

/-- Modelled from the spec: `inverseChol` (MatrixFunctors.hpp, not under
src/) is the Cholesky-based matrix inversion called by `MeasUpdate`
("invert predictedCov (Cholesky-based inversion)").  It is modelled as the
exact inverse over the rationals, succeeding precisely on invertible
matrices and failing otherwise; every claim about it conditions only on
its success or failure, never on the fine boundary between invertible and
positive definite. -/
def inverseChol {n : ℕ} (M : Matrix (Fin n) (Fin n) ℚ) :
    Option (Matrix (Fin n) (Fin n) ℚ) :=
  if M.det = 0 then none else some (M.det⁻¹ • M.adjugate)

/-- Kalman-filter data members shared by `SolverPPPUC` and `SolverUpdNL`
(`xhat`, `P`, `xhatminus`, `Pminus`, `solution`, `covMatrix`,
`postfitResiduals`, `valid`), for `k` unknowns and `m` measurement rows. -/
structure KState (k m : ℕ) where
  xhat : Fin k → ℚ
  P : Matrix (Fin k) (Fin k) ℚ
  xhatminus : Fin k → ℚ
  Pminus : Matrix (Fin k) (Fin k) ℚ
  solution : Fin k → ℚ
  covMatrix : Matrix (Fin k) (Fin k) ℚ
  postfitResiduals : Fin m → ℚ
  valid : Bool

/-- `SolverPPPUC::MeasUpdate` (SolverPPPUC.cpp lines 909-1021).  The shape
checks of the C++ code hold by construction of the sized types; the body
sets `valid = false`, inverts `Pminus`, forms
`invTemp = Hᵀ·R·H + invPMinus`, inverts it into `P`, computes `xhat`,
copies `solution`/`covMatrix` and the postfit residuals and sets
`valid = true`.  A failed inversion throws `InvalidSolver`; state members
mutated so far are kept, mirroring the C++ exception path. -/
def measUpdatePPPUC {k m : ℕ} (prefit : Fin m → ℚ)
    (H : Matrix (Fin m) (Fin k) ℚ) (R : Matrix (Fin m) (Fin m) ℚ)
    (s : KState k m) : KState k m × Option SolverErr :=
  let s0 := { s with valid := false }
  match inverseChol s0.Pminus with
  | none => (s0, some SolverErr.invalidSolver)
  | some invPMinus =>
    match inverseChol (Hᵀ * R * H + invPMinus) with
    | none => (s0, some SolverErr.invalidSolver)
    | some Pnew =>
      let xnew := Pnew *ᵥ ((Hᵀ * R) *ᵥ prefit + invPMinus *ᵥ s0.xhatminus)
      ({ s0 with P := Pnew
                 xhat := xnew
                 solution := xnew
                 covMatrix := Pnew
                 postfitResiduals := prefit - H *ᵥ xnew
                 valid := true }, none)

/-- `SolverUpdNL::MeasUpdate` (SolverUpdNL.cpp lines 688-805).  Identical
to the `SolverPPPUC` version except that on success it additionally copies
the posterior into `xhatminus`/`Pminus` (lines 791-792). -/
def measUpdateUpdNL {k m : ℕ} (prefit : Fin m → ℚ)
    (H : Matrix (Fin m) (Fin k) ℚ) (R : Matrix (Fin m) (Fin m) ℚ)
    (s : KState k m) : KState k m × Option SolverErr :=
  let s0 := { s with valid := false }
  match inverseChol s0.Pminus with
  | none => (s0, some SolverErr.invalidSolver)
  | some invPMinus =>
    match inverseChol (Hᵀ * R * H + invPMinus) with
    | none => (s0, some SolverErr.invalidSolver)
    | some Pnew =>
      let xnew := Pnew *ᵥ ((Hᵀ * R) *ᵥ prefit + invPMinus *ᵥ s0.xhatminus)
      ({ s0 with P := Pnew
                 xhat := xnew
                 xhatminus := xnew
                 Pminus := Pnew
                 solution := xnew
                 covMatrix := Pnew
                 postfitResiduals := prefit - H *ᵥ xnew
                 valid := true }, none)

/-- A successful `inverseChol` returns the exact matrix inverse. -/
theorem inverseChol_eq_inv {n : ℕ} {M N : Matrix (Fin n) (Fin n) ℚ}
    (h : inverseChol M = some N) : N = M⁻¹ := by
  unfold inverseChol at h
  by_cases hd : M.det = 0
  · simp [hd] at h
  · rw [if_neg hd] at h
    injection h with h2
    rw [← h2, Matrix.inv_def, Ring.inverse_eq_inv]

/-- A successful `inverseChol` implies the input is invertible. -/
theorem inverseChol_det_ne_zero {n : ℕ} {M N : Matrix (Fin n) (Fin n) ℚ}
    (h : inverseChol M = some N) : M.det ≠ 0 := by
  unfold inverseChol at h
  by_cases hd : M.det = 0
  · simp [hd] at h
  · exact hd


/-- C1: for every measurement-update call whose inputs pass the shape
checks (here enforced by the sized types) and whose Cholesky inversions
succeed (the call returns no error), the returned posterior covariance
equals inverse(Hᵀ·R·H + inverse(predictedCov)), the posterior state equals
posteriorCov·(Hᵀ·R·prefit + inverse(predictedCov)·predictedState), and the
postfit residual vector equals prefit − H·posteriorState; this holds for
both `SolverPPPUC::MeasUpdate` and `SolverUpdNL::MeasUpdate`. -/
theorem claim1_measUpdate_information_form :
    (∀ (k m : ℕ) (prefit : Fin m → ℚ) (H : Matrix (Fin m) (Fin k) ℚ)
        (R : Matrix (Fin m) (Fin m) ℚ) (s : KState k m),
        (measUpdatePPPUC prefit H R s).2 = none →
          (measUpdatePPPUC prefit H R s).1.P = (Hᵀ * R * H + s.Pminus⁻¹)⁻¹ ∧
          (measUpdatePPPUC prefit H R s).1.xhat =
            (Hᵀ * R * H + s.Pminus⁻¹)⁻¹ *ᵥ
              ((Hᵀ * R) *ᵥ prefit + s.Pminus⁻¹ *ᵥ s.xhatminus) ∧
          (measUpdatePPPUC prefit H R s).1.postfitResiduals =
            prefit - H *ᵥ (measUpdatePPPUC prefit H R s).1.xhat) ∧
    (∀ (k m : ℕ) (prefit : Fin m → ℚ) (H : Matrix (Fin m) (Fin k) ℚ)
        (R : Matrix (Fin m) (Fin m) ℚ) (s : KState k m),
        (measUpdateUpdNL prefit H R s).2 = none →
          (measUpdateUpdNL prefit H R s).1.P = (Hᵀ * R * H + s.Pminus⁻¹)⁻¹ ∧
          (measUpdateUpdNL prefit H R s).1.xhat =
            (Hᵀ * R * H + s.Pminus⁻¹)⁻¹ *ᵥ
              ((Hᵀ * R) *ᵥ prefit + s.Pminus⁻¹ *ᵥ s.xhatminus) ∧
          (measUpdateUpdNL prefit H R s).1.postfitResiduals =
            prefit - H *ᵥ (measUpdateUpdNL prefit H R s).1.xhat) := by
  constructor
  · intro k m prefit H R s hnone
    cases h1 : inverseChol s.Pminus with
    | none => simp [measUpdatePPPUC, h1] at hnone
    | some invP =>
      cases h2 : inverseChol (Hᵀ * R * H + invP) with
      | none => simp [measUpdatePPPUC, h1, h2] at hnone
      | some Pnew =>
        have e1 : invP = s.Pminus⁻¹ := inverseChol_eq_inv h1
        subst e1
        have e2 : Pnew = (Hᵀ * R * H + s.Pminus⁻¹)⁻¹ := inverseChol_eq_inv h2
        subst e2
        refine ⟨?_, ?_, ?_⟩ <;> simp [measUpdatePPPUC, h1, h2]
  · intro k m prefit H R s hnone
    cases h1 : inverseChol s.Pminus with
    | none => simp [measUpdateUpdNL, h1] at hnone
    | some invP =>
      cases h2 : inverseChol (Hᵀ * R * H + invP) with
      | none => simp [measUpdateUpdNL, h1, h2] at hnone
      | some Pnew =>
        have e1 : invP = s.Pminus⁻¹ := inverseChol_eq_inv h1
        subst e1
        have e2 : Pnew = (Hᵀ * R * H + s.Pminus⁻¹)⁻¹ := inverseChol_eq_inv h2
        subst e2
        refine ⟨?_, ?_, ?_⟩ <;> simp [measUpdateUpdNL, h1, h2]

/-- Concrete prefit vector used by the measurement-update witnesses. -/
def exPrefit : Fin 1 → ℚ := ![2]

/-- Concrete (zero) design matrix used by the measurement-update
witnesses. -/
def exH : Matrix (Fin 1) (Fin 1) ℚ := 0

/-- Concrete weight matrix used by the measurement-update witnesses. -/
def exR : Matrix (Fin 1) (Fin 1) ℚ := 1

/-- Concrete solver state with invertible predicted covariance. -/
def exState : KState 1 1 :=
  ⟨![0], 1, ![3], 1, ![0], 1, ![0], false⟩

/-- Concrete solver state whose predicted covariance is singular, so that
the Cholesky inversion fails. -/
def exStateSingular : KState 1 1 :=
  ⟨![7], 1, ![3], 0, ![7], 1, ![5], true⟩

/-- Witness for C1: a concrete successful measurement update on both
solvers, with the hypotheses discharged by evaluation. -/
theorem claim1_measUpdate_information_form_witness :
    ((measUpdatePPPUC exPrefit exH exR exState).2 = none ∧
      (measUpdatePPPUC exPrefit exH exR exState).1.P =
        (exHᵀ * exR * exH + exState.Pminus⁻¹)⁻¹) ∧
    ((measUpdateUpdNL exPrefit exH exR exState).2 = none ∧
      (measUpdateUpdNL exPrefit exH exR exState).1.P =
        (exHᵀ * exR * exH + exState.Pminus⁻¹)⁻¹) := by
  have hp : (measUpdatePPPUC exPrefit exH exR exState).2 = none := by
    simp [measUpdatePPPUC, inverseChol, exState, exH, exR]
  have hu : (measUpdateUpdNL exPrefit exH exR exState).2 = none := by
    simp [measUpdateUpdNL, inverseChol, exState, exH, exR]
  exact ⟨⟨hp, (claim1_measUpdate_information_form.1 1 1
            exPrefit exH exR exState hp).1⟩,
         ⟨hu, (claim1_measUpdate_information_form.2 1 1
            exPrefit exH exR exState hu).1⟩⟩

/-- C4: when the measurement update fails (a covariance inversion is
rejected), it returns the typed `InvalidSolver` error and commits no
partial update: `xhat`, `P`, `solution` and `covMatrix` keep exactly the
values they held before the call, for both solvers, so the previous
posterior is retained as the prior of the next epoch. -/
theorem claim4_measUpdate_failure_commits_nothing :
    (∀ (k m : ℕ) (prefit : Fin m → ℚ) (H : Matrix (Fin m) (Fin k) ℚ)
        (R : Matrix (Fin m) (Fin m) ℚ) (s : KState k m) (e : SolverErr),
        (measUpdatePPPUC prefit H R s).2 = some e →
          e = SolverErr.invalidSolver ∧
          (measUpdatePPPUC prefit H R s).1.xhat = s.xhat ∧
          (measUpdatePPPUC prefit H R s).1.P = s.P ∧
          (measUpdatePPPUC prefit H R s).1.solution = s.solution ∧
          (measUpdatePPPUC prefit H R s).1.covMatrix = s.covMatrix) ∧
    (∀ (k m : ℕ) (prefit : Fin m → ℚ) (H : Matrix (Fin m) (Fin k) ℚ)
        (R : Matrix (Fin m) (Fin m) ℚ) (s : KState k m) (e : SolverErr),
        (measUpdateUpdNL prefit H R s).2 = some e →
          e = SolverErr.invalidSolver ∧
          (measUpdateUpdNL prefit H R s).1.xhat = s.xhat ∧
          (measUpdateUpdNL prefit H R s).1.P = s.P ∧
          (measUpdateUpdNL prefit H R s).1.solution = s.solution ∧
          (measUpdateUpdNL prefit H R s).1.covMatrix = s.covMatrix) := by
  constructor
  · intro k m prefit H R s e he
    cases h1 : inverseChol s.Pminus with
    | none => refine ⟨?_, ?_, ?_, ?_, ?_⟩ <;> simp_all [measUpdatePPPUC, h1]
    | some invP =>
      cases h2 : inverseChol (Hᵀ * R * H + invP) with
      | none => refine ⟨?_, ?_, ?_, ?_, ?_⟩ <;> simp_all [measUpdatePPPUC, h1, h2]
      | some Pnew => simp [measUpdatePPPUC, h1, h2] at he
  · intro k m prefit H R s e he
    cases h1 : inverseChol s.Pminus with
    | none => refine ⟨?_, ?_, ?_, ?_, ?_⟩ <;> simp_all [measUpdateUpdNL, h1]
    | some invP =>
      cases h2 : inverseChol (Hᵀ * R * H + invP) with
      | none => refine ⟨?_, ?_, ?_, ?_, ?_⟩ <;> simp_all [measUpdateUpdNL, h1, h2]
      | some Pnew => simp [measUpdateUpdNL, h1, h2] at he

/-- Witness for C4: a concrete failed measurement update (singular
predicted covariance) on both solvers leaves the posterior untouched. -/
theorem claim4_measUpdate_failure_commits_nothing_witness :
    ((measUpdatePPPUC exPrefit exH exR exStateSingular).2 =
        some SolverErr.invalidSolver ∧
      (measUpdatePPPUC exPrefit exH exR exStateSingular).1.xhat =
        exStateSingular.xhat) ∧
    ((measUpdateUpdNL exPrefit exH exR exStateSingular).2 =
        some SolverErr.invalidSolver ∧
      (measUpdateUpdNL exPrefit exH exR exStateSingular).1.xhat =
        exStateSingular.xhat) := by
  have hp : (measUpdatePPPUC exPrefit exH exR exStateSingular).2 =
      some SolverErr.invalidSolver := by
    simp [measUpdatePPPUC, inverseChol, exStateSingular]
  have hu : (measUpdateUpdNL exPrefit exH exR exStateSingular).2 =
      some SolverErr.invalidSolver := by
    simp [measUpdateUpdNL, inverseChol, exStateSingular]
  exact ⟨⟨hp, (claim4_measUpdate_failure_commits_nothing.1 1 1
            exPrefit exH exR exStateSingular SolverErr.invalidSolver hp).2.1⟩,
         ⟨hu, (claim4_measUpdate_failure_commits_nothing.2 1 1
            exPrefit exH exR exStateSingular SolverErr.invalidSolver hu).2.1⟩⟩


/-- Identity fields of a `Variable` (Variable.hpp): observable type,
owning source, owning satellite and the three indexing flags.  `TypeID`,
`SourceID` and `SatID` are embedded as numeric codes.  Modelled from the
spec for the comparison operators (Variable.cpp is not under src/):
two Variables are equal iff these fields match, independent of the
stochastic model, the variance or any transient index. -/
structure VarId where
  vtype : ℕ
  vsource : ℕ
  vsat : ℕ
  srcIndexed : Bool
  satIndexed : Bool
  typeIndexed : Bool
deriving DecidableEq

/-- A `Variable` (Variable.hpp): its identity together with the declared
initial variance (`getInitialVariance`).  The stochastic-model pointer and
the transient indices play no role in the claims and are omitted. -/
structure Variable where
  id : VarId
  initialVariance : ℚ

/-- Lookup in an association list, mirroring `std::map` access keyed by
Variable identity. -/
def mapLookup {κ α : Type} [DecidableEq κ] : List (κ × α) → κ → Option α
  | [], _ => none
  | (k, a) :: rest, x => if x = k then some a else mapLookup rest x

/-- The state-storing loop of `SolverUpdNL::postCompute` (SolverUpdNL.cpp
lines 832-841): `stateMap[*itVar] = solution(i)` with `i` following the
traversal order, starting from `k`. -/
def snapStateAux (sol : ℕ → ℚ) : List Variable → ℕ → List (VarId × ℚ)
  | [], _ => []
  | v :: rest, i => (v.id, sol i) :: snapStateAux sol rest (i + 1)

/-- `stateMap` produced by `SolverUpdNL::postCompute` for the ordered
unknown set `vars` and solution vector `sol`. -/
def snapshotState (vars : List Variable) (sol : ℕ → ℚ) : List (VarId × ℚ) :=
  snapStateAux sol vars 0

/-- The inner covariance-storing loop of `SolverUpdNL::postCompute`
(lines 864-871): `covarianceMap[v1][v2] = covMatrix(i, j)` for the
Variables `v2` strictly after `v1`, with `j` starting from `b`. -/
def snapCovRow (cov : ℕ → ℕ → ℚ) (i : ℕ) :
    List Variable → ℕ → List (VarId × ℚ)
  | [], _ => []
  | v :: rest, j => (v.id, cov i j) :: snapCovRow cov i rest (j + 1)

/-- The outer covariance-storing loop of `SolverUpdNL::postCompute`
(lines 851-875): for each `v1` at position `i`, the diagonal entry
`covarianceMap[v1][v1] = covMatrix(i, i)` followed by the upper-triangle
entries for the Variables after `v1`. -/
def snapCovAux (cov : ℕ → ℕ → ℚ) :
    List Variable → ℕ → List (VarId × List (VarId × ℚ))
  | [], _ => []
  | v :: rest, i =>
      (v.id, (v.id, cov i i) :: snapCovRow cov i rest (i + 1)) ::
        snapCovAux cov rest (i + 1)

/-- `covarianceMap` produced by `SolverUpdNL::postCompute` for the ordered
unknown set `vars` and covariance matrix `cov`. -/
def snapshotCov (vars : List Variable) (cov : ℕ → ℕ → ℚ) :
    List (VarId × List (VarId × ℚ)) :=
  snapCovAux cov vars 0

/-- The state-rebuilding loop of the non-first-epoch branch of
`SolverUpdNL::preCompute` (lines 245-252):
`currentState(i) = stateMap[vars_i]`, where `std::map::operator[]`
yields `0.0` for an absent key. -/
def materializeState (vars : List Variable) (sm : List (VarId × ℚ))
    (i : ℕ) : ℚ :=
  match vars[i]? with
  | some v => (mapLookup sm v.id).getD 0
  | none => 0

/-- Double map access `covarianceMap[a][b]` as read by the off-diagonal
loop of `SolverUpdNL::preCompute` (lines 283-293): absent outer or inner
keys default to `0.0`. -/
def covLookup (cm : List (VarId × List (VarId × ℚ))) (a b : VarId) : ℚ :=
  match mapLookup cm a with
  | some row => (mapLookup row b).getD 0
  | none => 0

/-- The covariance-rebuilding loops of the non-first-epoch branch of
`SolverUpdNL::preCompute` (lines 260-297): the diagonal entry comes from
`covarianceMap[v_i][v_i]` when `v_i` is a key of `covarianceMap` and from
`getInitialVariance()` otherwise; the strict upper triangle comes from
`covarianceMap[v_i][v_j]` (defaulting to `0.0`) and is mirrored below the
diagonal. -/
def materializeCov (vars : List Variable)
    (cm : List (VarId × List (VarId × ℚ))) (i j : ℕ) : ℚ :=
  match vars[i]?, vars[j]? with
  | some vi, some vj =>
      if i = j then
        match mapLookup cm vi.id with
        | some row => (mapLookup row vi.id).getD 0
        | none => vi.initialVariance
      else if i < j then covLookup cm vi.id vj.id
      else covLookup cm vj.id vi.id
  | _, _ => 0

/-- Looking up the `i`-th stored Variable in the snapshot state map finds
the `i`-th solution entry, offset by the starting index `k`. -/
theorem mapLookup_snapStateAux (sol : ℕ → ℚ) (vars : List Variable)
    (k i : ℕ) (hi : i < vars.length) (hnd : (vars.map (·.id)).Nodup) :
    mapLookup (snapStateAux sol vars k) (vars[i].id) =
      some (sol (k + i)) := by
  induction vars generalizing k i with
  | nil => exact absurd hi (Nat.not_lt_zero i)
  | cons v rest ih =>
    simp only [List.map_cons, List.nodup_cons] at hnd
    cases i with
    | zero => simp [snapStateAux, mapLookup]
    | succ n =>
      have hn : n < rest.length := by
        simp only [List.length_cons] at hi
        omega
      have hne : ¬ (rest[n].id = v.id) := by
        intro he
        exact hnd.1 (he ▸ List.mem_map_of_mem _ (List.getElem_mem hn))
      have hrec := ih (k + 1) n hn hnd.2
      have harith : k + 1 + n = k + (n + 1) := by omega
      rw [harith] at hrec
      simpa [snapStateAux, mapLookup, hne] using hrec

/-- A key absent from the stored unknown set is absent from the snapshot
state map. -/
theorem mapLookup_snapStateAux_none (sol : ℕ → ℚ) (vars : List Variable)
    (k : ℕ) (x : VarId) (hx : x ∉ vars.map (·.id)) :
    mapLookup (snapStateAux sol vars k) x = none := by
  induction vars generalizing k with
  | nil => rfl
  | cons v rest ih =>
    simp only [List.map_cons, List.mem_cons, not_or] at hx
    simpa [snapStateAux, mapLookup, hx.1] using ih (k + 1) hx.2

/-- Looking up the `t`-th Variable of the tail segment in a stored
covariance row finds the corresponding matrix entry. -/
theorem mapLookup_snapCovRow (cov : ℕ → ℕ → ℚ) (a : ℕ)
    (l : List Variable) (b t : ℕ) (ht : t < l.length)
    (hnd : (l.map (·.id)).Nodup) :
    mapLookup (snapCovRow cov a l b) (l[t].id) =
      some (cov a (b + t)) := by
  induction l generalizing b t with
  | nil => exact absurd ht (Nat.not_lt_zero t)
  | cons v rest ih =>
    simp only [List.map_cons, List.nodup_cons] at hnd
    cases t with
    | zero => simp [snapCovRow, mapLookup]
    | succ n =>
      have hn : n < rest.length := by
        simp only [List.length_cons] at ht
        omega
      have hne : ¬ (rest[n].id = v.id) := by
        intro he
        exact hnd.1 (he ▸ List.mem_map_of_mem _ (List.getElem_mem hn))
      have hrec := ih (b + 1) n hn hnd.2
      have harith : b + 1 + n = b + (n + 1) := by omega
      rw [harith] at hrec
      simpa [snapCovRow, mapLookup, hne] using hrec

/-- A key absent from the tail segment is absent from its stored
covariance row. -/
theorem mapLookup_snapCovRow_none (cov : ℕ → ℕ → ℚ) (a : ℕ)
    (l : List Variable) (b : ℕ) (x : VarId) (hx : x ∉ l.map (·.id)) :
    mapLookup (snapCovRow cov a l b) x = none := by
  induction l generalizing b with
  | nil => rfl
  | cons v rest ih =>
    simp only [List.map_cons, List.mem_cons, not_or] at hx
    simpa [snapCovRow, mapLookup, hx.1] using ih (b + 1) hx.2

/-- The snapshot covariance map has a row for the `i`-th stored Variable,
and that row contains the diagonal entry. -/
theorem mapLookup_snapCovAux_diag (cov : ℕ → ℕ → ℚ) (vars : List Variable)
    (k i : ℕ) (hi : i < vars.length) (hnd : (vars.map (·.id)).Nodup) :
    ∃ row, mapLookup (snapCovAux cov vars k) (vars[i].id) = some row ∧
      mapLookup row (vars[i].id) = some (cov (k + i) (k + i)) := by
  induction vars generalizing k i with
  | nil => exact absurd hi (Nat.not_lt_zero i)
  | cons v rest ih =>
    simp only [List.map_cons, List.nodup_cons] at hnd
    cases i with
    | zero =>
      refine ⟨(v.id, cov k k) :: snapCovRow cov k rest (k + 1), ?_, ?_⟩ <;>
        simp [snapCovAux, mapLookup]
    | succ n =>
      have hn : n < rest.length := by
        simp only [List.length_cons] at hi
        omega
      have hne : ¬ (rest[n].id = v.id) := by
        intro he
        exact hnd.1 (he ▸ List.mem_map_of_mem _ (List.getElem_mem hn))
      obtain ⟨row, h1, h2⟩ := ih (k + 1) n hn hnd.2
      refine ⟨row, ?_, ?_⟩
      · simpa [snapCovAux, mapLookup, hne] using h1
      · have harith : k + 1 + n = k + (n + 1) := by omega
        rw [harith] at h2
        simpa using h2

/-- A key absent from the stored unknown set has no row in the snapshot
covariance map. -/
theorem mapLookup_snapCovAux_none (cov : ℕ → ℕ → ℚ) (vars : List Variable)
    (k : ℕ) (x : VarId) (hx : x ∉ vars.map (·.id)) :
    mapLookup (snapCovAux cov vars k) x = none := by
  induction vars generalizing k with
  | nil => rfl
  | cons v rest ih =>
    simp only [List.map_cons, List.mem_cons, not_or] at hx
    simpa [snapCovAux, mapLookup, hx.1] using ih (k + 1) hx.2

/-- Every row of the snapshot covariance map is keyed by stored
identities only: a key absent from the unknown set is absent from every
row. -/
theorem mapLookup_snapCovAux_row_none (cov : ℕ → ℕ → ℚ)
    (vars : List Variable) (k : ℕ) (a x : VarId) (row : List (VarId × ℚ))
    (hrow : mapLookup (snapCovAux cov vars k) a = some row)
    (hx : x ∉ vars.map (·.id)) : mapLookup row x = none := by
  induction vars generalizing k with
  | nil => exact absurd hrow (by simp [snapCovAux, mapLookup])
  | cons v rest ih =>
    simp only [List.map_cons, List.mem_cons, not_or] at hx
    by_cases hav : a = v.id
    · have hrow2 : row = (v.id, cov k k) :: snapCovRow cov k rest (k + 1) := by
        have := hrow
        simp [snapCovAux, mapLookup, hav] at this
        exact this.symm
      subst hrow2
      simpa [mapLookup, hx.1] using
        mapLookup_snapCovRow_none cov k rest (k + 1) x hx.2
    · have hrow2 : mapLookup (snapCovAux cov rest (k + 1)) a = some row := by
        simpa [snapCovAux, mapLookup, hav] using hrow
      exact ih (k + 1) hrow2 hx.2

/-- Reading `covarianceMap[v_i][v_j]` from the snapshot, for stored
positions `i ≤ j`, recovers the stored matrix entry. -/
theorem covLookup_snapCovAux (cov : ℕ → ℕ → ℚ) (vars : List Variable)
    (k i j : ℕ) (hi : i < vars.length) (hj : j < vars.length) (hij : i ≤ j)
    (hnd : (vars.map (·.id)).Nodup) :
    covLookup (snapCovAux cov vars k) (vars[i].id) (vars[j].id) =
      cov (k + i) (k + j) := by
  induction vars generalizing k i j with
  | nil => exact absurd hi (Nat.not_lt_zero i)
  | cons v rest ih =>
    simp only [List.map_cons, List.nodup_cons] at hnd
    cases i with
    | zero =>
      cases j with
      | zero => simp [covLookup, snapCovAux, mapLookup]
      | succ n =>
        have hn : n < rest.length := by
          simp only [List.length_cons] at hj
          omega
        have hne : ¬ (rest[n].id = v.id) := by
          intro he
          exact hnd.1 (he ▸ List.mem_map_of_mem _ (List.getElem_mem hn))
        have hrow := mapLookup_snapCovRow cov k rest (k + 1) n hn hnd.2
        have harith : k + 1 + n = k + (n + 1) := by omega
        rw [harith] at hrow
        have hrow2 : mapLookup (snapCovRow cov k rest (k + 1)) (rest[n].id) =
            some (cov k (k + (n + 1))) := by simpa using hrow
        simp [covLookup, snapCovAux, mapLookup, hne, hrow2]
    | succ p =>
      cases j with
      | zero => exact absurd hij (by omega)
      | succ q =>
        have hp : p < rest.length := by
          simp only [List.length_cons] at hi
          omega
        have hq : q < rest.length := by
          simp only [List.length_cons] at hj
          omega
        have hnep : ¬ (rest[p].id = v.id) := by
          intro he
          exact hnd.1 (he ▸ List.mem_map_of_mem _ (List.getElem_mem hp))
        have hrec := ih (k + 1) p q hp hq (by omega) hnd.2
        have har1 : k + 1 + p = k + (p + 1) := by omega
        have har2 : k + 1 + q = k + (q + 1) := by omega
        rw [har1, har2] at hrec
        simpa [covLookup, snapCovAux, mapLookup, hnep] using hrec


/-- C2: storing a posterior state vector and symmetric covariance matrix
into the Variable-keyed maps (`SolverUpdNL::postCompute`) and rebuilding
the prior from the same ordered Variable set (the non-first-epoch branch
of `SolverUpdNL::preCompute`) reproduces exactly the original state and
covariance values. -/
theorem claim2_snapshot_materialize_roundtrip
    (vars : List Variable) (sol : ℕ → ℚ) (cov : ℕ → ℕ → ℚ)
    (hnd : (vars.map (·.id)).Nodup)
    (hsym : ∀ i j, i < vars.length → j < vars.length → cov i j = cov j i) :
    (∀ i, i < vars.length →
      materializeState vars (snapshotState vars sol) i = sol i) ∧
    (∀ i j, i < vars.length → j < vars.length →
      materializeCov vars (snapshotCov vars cov) i j = cov i j) := by
  constructor
  · intro i hi
    have hget : vars[i]? = some (vars[i]) := List.getElem?_eq_getElem hi
    have hlk := mapLookup_snapStateAux sol vars 0 i hi hnd
    unfold materializeState
    rw [hget]
    simp [snapshotState, hlk]
  · intro i j hi hj
    have hgi : vars[i]? = some (vars[i]) := List.getElem?_eq_getElem hi
    have hgj : vars[j]? = some (vars[j]) := List.getElem?_eq_getElem hj
    unfold materializeCov
    rw [hgi, hgj]
    rcases Nat.lt_trichotomy i j with hlt | heq | hgt
    · have h1 : ¬ (i = j) := by omega
      have hle := covLookup_snapCovAux cov vars 0 i j hi hj (by omega) hnd
      simp [snapshotCov, h1, hlt, hle]
    · subst heq
      obtain ⟨row, hr1, hr2⟩ := mapLookup_snapCovAux_diag cov vars 0 i hi hnd
      simp [snapshotCov, hr1, hr2]
    · have h1 : ¬ (i = j) := by omega
      have h2 : ¬ (i < j) := by omega
      have hle := covLookup_snapCovAux cov vars 0 j i hj hi (by omega) hnd
      simp only [Nat.zero_add] at hle
      rw [hsym j i hj hi] at hle
      simp [snapshotCov, h1, h2, hle]

/-- First concrete Variable for the carry-forward witnesses. -/
def exVarA : Variable := ⟨⟨1, 0, 3, true, false, true⟩, 100⟩

/-- Second concrete Variable for the carry-forward witnesses. -/
def exVarB : Variable := ⟨⟨2, 0, 5, true, false, true⟩, 200⟩

/-- Third concrete Variable (a new satellite unknown) for the
carry-forward witnesses. -/
def exVarC : Variable := ⟨⟨2, 0, 7, true, false, true⟩, 2500⟩

/-- Witness for C2: a concrete two-Variable round trip restores the
stored state and covariance entries. -/
theorem claim2_snapshot_materialize_roundtrip_witness :
    materializeState [exVarA, exVarB]
      (snapshotState [exVarA, exVarB] (fun i => (i : ℚ) + 1)) 0 = 1 ∧
    materializeCov [exVarA, exVarB]
      (snapshotCov [exVarA, exVarB] (fun i j => (i : ℚ) * j + 1)) 0 1 = 1 := by
  have h := claim2_snapshot_materialize_roundtrip [exVarA, exVarB]
      (fun i => (i : ℚ) + 1) (fun i j => (i : ℚ) * j + 1)
      (by decide)
      (fun i j _ _ => by
        show (i : ℚ) * j + 1 = (j : ℚ) * i + 1
        rw [mul_comm])
  constructor
  · simpa using h.1 0 (by decide)
  · simpa using h.2 0 1 (by decide) (by decide)

/-- C3: in the carry-forward materialization
(`SolverUpdNL::preCompute`, non-first-epoch branch), a Variable of the
current unknown set that is absent from the previous snapshot receives
state value 0, a diagonal covariance entry equal to exactly its declared
initial variance and zero off-diagonal covariance with every other
unknown, while a Variable present in both epochs keeps its stored mean
and covariance entries. -/
theorem claim3_carry_forward_new_and_old
    (prevVars currVars : List Variable) (psol : ℕ → ℚ) (pcov : ℕ → ℕ → ℚ)
    (hnd : (prevVars.map (·.id)).Nodup) :
    (∀ i (hi : i < currVars.length),
      currVars[i].id ∉ prevVars.map (·.id) →
        materializeState currVars (snapshotState prevVars psol) i = 0 ∧
        materializeCov currVars (snapshotCov prevVars pcov) i i =
          currVars[i].initialVariance ∧
        (∀ j, j < currVars.length → j ≠ i →
          materializeCov currVars (snapshotCov prevVars pcov) i j = 0)) ∧
    (∀ i p (hi : i < currVars.length) (hp : p < prevVars.length),
      currVars[i].id = prevVars[p].id →
        materializeState currVars (snapshotState prevVars psol) i = psol p ∧
        materializeCov currVars (snapshotCov prevVars pcov) i i =
          pcov p p) ∧
    (∀ i j p q (hi : i < currVars.length) (hj : j < currVars.length)
        (hp : p < prevVars.length) (hq : q < prevVars.length),
      i < j → p ≤ q →
      currVars[i].id = prevVars[p].id → currVars[j].id = prevVars[q].id →
        materializeCov currVars (snapshotCov prevVars pcov) i j =
          pcov p q ∧
        materializeCov currVars (snapshotCov prevVars pcov) j i =
          pcov p q) := by
  refine ⟨?_, ?_, ?_⟩
  · intro i hi hab
    have hget : currVars[i]? = some (currVars[i]) := List.getElem?_eq_getElem hi
    refine ⟨?_, ?_, ?_⟩
    · unfold materializeState
      rw [hget]
      simp [snapshotState, mapLookup_snapStateAux_none psol prevVars 0 _ hab]
    · unfold materializeCov
      rw [hget]
      simp [snapshotCov, mapLookup_snapCovAux_none pcov prevVars 0 _ hab]
    · intro j hj hji
      have hgj : currVars[j]? = some (currVars[j]) := List.getElem?_eq_getElem hj
      unfold materializeCov
      rw [hget, hgj]
      rcases Nat.lt_trichotomy i j with hlt | heq | hgt
      · have h1 : ¬ (i = j) := by omega
        simp only [h1, if_false, hlt, if_true]
        unfold covLookup snapshotCov
        rw [mapLookup_snapCovAux_none pcov prevVars 0 _ hab]
      · exact absurd heq.symm hji
      · have h1 : ¬ (i = j) := by omega
        have h2 : ¬ (i < j) := by omega
        simp only [h1, if_false, h2]
        unfold covLookup
        cases hrow : mapLookup (snapshotCov prevVars pcov) (currVars[j].id) with
        | none => simp
        | some row =>
          have hr :=
            mapLookup_snapCovAux_row_none pcov prevVars 0 _ _ row hrow hab
          simp [hr]
  · intro i p hi hp hid
    have hget : currVars[i]? = some (currVars[i]) := List.getElem?_eq_getElem hi
    constructor
    · have hlk := mapLookup_snapStateAux psol prevVars 0 p hp hnd
      unfold materializeState
      rw [hget]
      simp [snapshotState, hid, hlk]
    · obtain ⟨row, hr1, hr2⟩ := mapLookup_snapCovAux_diag pcov prevVars 0 p hp hnd
      unfold materializeCov
      rw [hget]
      simp [snapshotCov, hid, hr1, hr2]
  · intro i j p q hi hj hp hq hij hpq hidi hidj
    have hgi : currVars[i]? = some (currVars[i]) := List.getElem?_eq_getElem hi
    have hgj : currVars[j]? = some (currVars[j]) := List.getElem?_eq_getElem hj
    have hle := covLookup_snapCovAux pcov prevVars 0 p q hp hq hpq hnd
    have h1 : ¬ (i = j) := by omega
    have h2 : ¬ (j = i) := by omega
    have h3 : ¬ (j < i) := by omega
    constructor
    · unfold materializeCov
      rw [hgi, hgj]
      simp [snapshotCov, h1, hij, hidi, hidj, hle]
    · unfold materializeCov
      rw [hgj, hgi]
      simp [snapshotCov, h2, h3, hidi, hidj, hle]

/-- Witness for C3: with previous epoch `[A, B]` and current epoch
`[B, C]`, the new Variable `C` gets state 0, its declared variance 2500
on the diagonal and zero cross covariance, while `B` keeps its stored
mean and variance. -/
theorem claim3_carry_forward_new_and_old_witness :
    materializeState [exVarB, exVarC]
      (snapshotState [exVarA, exVarB] (fun i => (i : ℚ) + 10)) 1 = 0 ∧
    materializeCov [exVarB, exVarC]
      (snapshotCov [exVarA, exVarB] (fun i j => (i : ℚ) + j)) 1 1 = 2500 ∧
    materializeCov [exVarB, exVarC]
      (snapshotCov [exVarA, exVarB] (fun i j => (i : ℚ) + j)) 1 0 = 0 ∧
    materializeState [exVarB, exVarC]
      (snapshotState [exVarA, exVarB] (fun i => (i : ℚ) + 10)) 0 = 11 ∧
    materializeCov [exVarB, exVarC]
      (snapshotCov [exVarA, exVarB] (fun i j => (i : ℚ) + j)) 0 0 = 2 := by
  obtain ⟨hnew, hold, _⟩ := claim3_carry_forward_new_and_old
      [exVarA, exVarB] [exVarB, exVarC]
      (fun i => (i : ℚ) + 10) (fun i j => (i : ℚ) + j) (by decide)
  have h1 := hnew 1 (by decide) (by decide)
  have h2 := hold 0 1 (by decide) (by decide) (by decide)
  refine ⟨h1.1, ?_, h1.2.2 0 (by decide) (by decide), ?_, ?_⟩
  · simpa [exVarC] using h1.2.1
  · have hv := h2.1
    norm_num at hv
    exact hv
  · have hv := h2.2
    norm_num at hv
    exact hv


/-- Typed error raised by `SolverUpdNL::AmbiguityConstr` when the
fixed-ambiguity map is empty (SolverUpdNL.cpp lines 560-568). -/
inductive ConstrErr where
  | noFixableAmbiguity
deriving DecidableEq

/-- The while loop of `SolverUpdNL::AmbiguityConstr` (lines 583-589):
the column of a fixed ambiguity Variable, found by scanning the ordered
unknown set until the identity matches.  For a key not in the set the C++
loop would run off the end of the set (undefined behaviour); the model
then returns the set length. -/
def posOf : List VarId → VarId → ℕ
  | [], _ => 0
  | k :: rest, x => if k = x then 0 else posOf rest x + 1

/-- The combined prefit/geometry/weight system produced by
`SolverUpdNL::AmbiguityConstr`, with its row count `numEqu`. -/
structure ConstrSystem where
  prefit : ℕ → ℚ
  geometry : ℕ → ℕ → ℚ
  weight : ℕ → ℕ → ℚ
  numEqu : ℕ

/-- `SolverUpdNL::AmbiguityConstr` (SolverUpdNL.cpp lines 556-667).
With `numFix = 0` it throws; otherwise it builds the fixed-ambiguity
rows (prefit = fixed value, coefficient 1.0 at the Variable column,
diagonal weight 1.0E+14) and copies the original system into the first
`numMeas` rows — for the weight matrix only the diagonal entries
(`tempWeight(i,i) = rMatrix(i,i)`, lines 637 and 655), every other entry
of the zero-initialised combined weight matrix staying 0. -/
def ambiguityConstr (unkIds : List VarId) (ambFixedMap : List (VarId × ℚ))
    (numMeas : ℕ) (meas : ℕ → ℚ) (hM rM : ℕ → ℕ → ℚ) :
    Except ConstrErr ConstrSystem :=
  let numUnknowns := unkIds.length
  let numFix := ambFixedMap.length
  if numFix = 0 then Except.error ConstrErr.noFixableAmbiguity
  else
    let numEqu := numMeas + numFix
    Except.ok
      { prefit := fun i =>
          if i < numMeas then meas i
          else if i < numEqu then
            ((ambFixedMap[i - numMeas]?).map Prod.snd).getD 0
          else 0
        geometry := fun i j =>
          if i < numMeas then (if j < numUnknowns then hM i j else 0)
          else if i < numEqu then
            match ambFixedMap[i - numMeas]? with
            | some e =>
                if j < numUnknowns then
                  (if j = posOf unkIds e.1 then 1 else 0)
                else 0
            | none => 0
          else 0
        weight := fun i j =>
          if i = j then
            (if i < numMeas then rM i i
             else if i < numEqu then (10 : ℚ) ^ 14
             else 0)
          else 0
        numEqu := numEqu }

/-- For a key present in the unknown set, `posOf` is a valid position and
the set holds exactly that key there. -/
theorem posOf_getElem (l : List VarId) (x : VarId) (hx : x ∈ l) :
    posOf l x < l.length ∧ l[posOf l x]? = some x := by
  induction l with
  | nil => cases hx
  | cons k rest ih =>
    by_cases hk : k = x
    · subst hk
      simp [posOf]
    · have hx2 : x ∈ rest := by
        cases List.mem_cons.mp hx with
        | inl h => exact absurd h.symm hk
        | inr h => exact h
      obtain ⟨h1, h2⟩ := ih hx2
      constructor
      · simp only [posOf, hk, if_false, List.length_cons]
        omega
      · simp [posOf, hk, h2]

/-- C5 (amended): the ambiguity-constraint injection errors out on an
empty fixed-ambiguity map; otherwise, for `m` measurement rows and `k`
fixed ambiguities it produces exactly `m + k` rows whose first `m` rows
keep the original prefit and design-matrix entries and the original
diagonal weight entries (off-diagonal weight entries of the combined
weight matrix are zero), and, for each fixed ambiguity, one appended row
with prefit equal to the fixed value, design coefficient 1.0 in exactly
that Variable column and 0 in every other column, and diagonal weight
1.0E+14. -/
theorem claim5_ambiguity_constraint_rows
    (unkIds : List VarId) (ambFixedMap : List (VarId × ℚ))
    (numMeas : ℕ) (meas : ℕ → ℚ) (hM rM : ℕ → ℕ → ℚ) :
    (ambFixedMap = [] →
      ambiguityConstr unkIds ambFixedMap numMeas meas hM rM =
        Except.error ConstrErr.noFixableAmbiguity) ∧
    (∀ out, ambiguityConstr unkIds ambFixedMap numMeas meas hM rM =
        Except.ok out →
      out.numEqu = numMeas + ambFixedMap.length ∧
      (∀ i, i < numMeas →
        out.prefit i = meas i ∧
        (∀ j, j < unkIds.length → out.geometry i j = hM i j) ∧
        out.weight i i = rM i i ∧
        (∀ j, j ≠ i → out.weight i j = 0)) ∧
      (∀ t (ht : t < ambFixedMap.length),
        out.prefit (numMeas + t) = (ambFixedMap[t]).2 ∧
        (∀ j, j < unkIds.length →
          out.geometry (numMeas + t) j =
            (if j = posOf unkIds (ambFixedMap[t]).1 then 1 else 0)) ∧
        out.weight (numMeas + t) (numMeas + t) = (10 : ℚ) ^ 14 ∧
        (∀ j, j ≠ numMeas + t → out.weight (numMeas + t) j = 0)) ∧
      (∀ x, x ∈ unkIds →
        posOf unkIds x < unkIds.length ∧
          unkIds[posOf unkIds x]? = some x)) := by
  constructor
  · intro hemp
    subst hemp
    rfl
  · intro out hout
    by_cases hnf : ambFixedMap.length = 0
    · rw [ambiguityConstr, if_pos hnf] at hout
      cases hout
    · rw [ambiguityConstr, if_neg hnf] at hout
      injection hout with hrec
      subst hrec
      refine ⟨rfl, ?_, ?_, fun x hx => posOf_getElem unkIds x hx⟩
      · intro i hi
        refine ⟨by simp [hi], fun j hj => by simp [hi, hj], by simp [hi], ?_⟩
        intro j hji
        have hij : ¬ (i = j) := fun h => hji h.symm
        simp [hij]
      · intro t ht
        have hge : ¬ (numMeas + t < numMeas) := by omega
        have hlt : numMeas + t < numMeas + ambFixedMap.length := by omega
        have hsub : numMeas + t - numMeas = t := by omega
        have hget : ambFixedMap[t]? = some (ambFixedMap[t]) :=
          List.getElem?_eq_getElem ht
        refine ⟨?_, ?_, ?_, ?_⟩
        · simp [hge, hlt, hsub, hget]
        · intro j hj
          simp [hge, hlt, hsub, hget, hj]
        · simp [hge, hlt]
        · intro j hji
          have hij : ¬ (numMeas + t = j) := fun h => hji h.symm
          simp [hij]

/-- Concrete ordered unknown set for the constraint-injection results. -/
def exUnkIds : List VarId := [⟨1, 0, 3, true, false, true⟩]

/-- Concrete one-entry fixed-ambiguity map. -/
def exFixMap : List (VarId × ℚ) := [(⟨1, 0, 3, true, false, true⟩, 5)]

/-- Concrete measurement weight matrix with a nonzero off-diagonal
entry. -/
def exRW : ℕ → ℕ → ℚ :=
  fun i j => if i = j then 1 else if i = 0 ∧ j = 1 then 7 else 0

/-- Counterexample to C5 as stated: with two measurement rows whose
weight matrix has the off-diagonal entry (0,1) = 7, the combined system
returned by the injection holds 0 there — the first `m` rows do not keep
every original weight entry, only the diagonal ones. -/
theorem claim5_ambiguity_constraint_rows_counterexample :
    (ambiguityConstr exUnkIds exFixMap 2 (fun _ => 0) (fun _ _ => 0)
        exRW).map (fun out => out.weight 0 1) = Except.ok 0 ∧
      exRW 0 1 = 7 := by
  constructor
  · rfl
  · rfl

/-- Witness for C5: the empty map errors out, and a concrete one-fix
injection produces 2 rows with the original prefit in row 0, the fixed
value 5 and weight 1.0E+14 in row 1. -/
theorem claim5_ambiguity_constraint_rows_witness :
    (ambiguityConstr exUnkIds [] 1 (fun _ => 9) (fun _ _ => 3) exRW =
      Except.error ConstrErr.noFixableAmbiguity) ∧
    ((ambiguityConstr exUnkIds exFixMap 1 (fun _ => 9) (fun _ _ => 3)
        exRW).map
      (fun out => (out.numEqu, out.prefit 0, out.prefit 1,
        out.weight 1 1)) =
      Except.ok (2, 9, 5, (10 : ℚ) ^ 14)) := by
  refine ⟨(claim5_ambiguity_constraint_rows exUnkIds [] 1 (fun _ => 9)
      (fun _ _ => 3) exRW).1 rfl, ?_⟩
  cases hout : ambiguityConstr exUnkIds exFixMap 1 (fun _ => 9)
      (fun _ _ => 3) exRW with
  | error e =>
    exfalso
    rw [ambiguityConstr] at hout
    simp [exFixMap] at hout
  | ok out =>
    have h := (claim5_ambiguity_constraint_rows exUnkIds exFixMap 1
        (fun _ => 9) (fun _ _ => 3) exRW).2 out hout
    have h1 := h.1
    have h2 := (h.2.1 0 (by decide)).1
    have h3 := (h.2.2.1 0 (by decide)).1
    have h4 := (h.2.2.1 0 (by decide)).2.2.1
    simp only [exFixMap] at h1 h3
    simp only [Except.map, hout]
    simp [h1, h2, h3, h4]


/-- Total measurement count of `SolverPPPUC::preCompute`
(lines 260-267): `4*numCurrentSV + numIono + numTrop` with
`numIono = numCurrentSV - 1` and `numTrop = 1`. -/
def numMeasPPP (n : ℕ) : ℕ := 4 * n + (n - 1) + 1

/-- Unknown count of `SolverPPPUC::preCompute` (line 275):
`numVar + 3*numCurrentSV` (ionosphere plus two ambiguity types). -/
def numUnknownsPPP (nv n : ℕ) : ℕ := nv + 3 * n

/-- The reference-satellite scan of `SolverPPPUC::preCompute`
(lines 312-322): a linear pass keeping the index of the largest elevation
seen so far, starting from `maxElev = 0.0`.  `imax` starts uninitialised
in the C++ code; the model makes that explicit with the start value
`imax0`. -/
def findImax (imax0 : ℕ) (elev : ℕ → ℚ) (n : ℕ) : ℕ × ℚ :=
  (List.range n).foldl
    (fun st i => if st.2 < elev i then (i, elev i) else st) (imax0, 0)

/-- The `c`-th satellite index once the reference index `imax` is
skipped: the ionospheric-constraint loops of `SolverPPPUC::preCompute`
(lines 327-339, 386-396 and 500-514) visit the non-reference satellites
in index order, pairing constraint row `4n + c` with this satellite. -/
def nonRefSat (imax c : ℕ) : ℕ := if c < imax then c else c + 1

/-- Number of ionospheric constraint rows written by those loops:
`n - 1` when the reference index lies in range (one satellite skipped),
`n` otherwise — the latter only in the undefined uninitialised-`imax`
corner of the C++ code. -/
def numIonoRows (n imax : ℕ) : ℕ := if imax < n then n - 1 else n

/-- The measurement vector assembled by `SolverPPPUC::preCompute`
(lines 281-353) as a function of the row index: the prefit C/P2/L1/L2
blocks, the single-difference ionospheric constraints against the
reference satellite, and the tropospheric constraint written last into
row `5n - 1`; all remaining rows keep their zero initialisation. -/
def measVectorPPP (n : ℕ) (pC pP2 pL1 pL2 iono : ℕ → ℚ) (imax : ℕ)
    (trop : ℚ) (r : ℕ) : ℚ :=
  if r < n then pC r
  else if r < 2 * n then pP2 (r - n)
  else if r < 3 * n then pL1 (r - 2 * n)
  else if r < 4 * n then pL2 (r - 3 * n)
  else if r = 5 * n - 1 then trop
  else if r < 4 * n + numIonoRows n imax then
    iono (nonRefSat imax (r - 4 * n)) - iono imax
  else 0

/-- The diagonal weight matrix assembled by `SolverPPPUC::preCompute`
(lines 356-439).  When every tracked satellite carries a weight
(`dummy.numSats() == numCurrentSV`, line 366) the code rows get
`11.111111*w`, the phase rows `111111.11*w` and the ionospheric
constraint rows `(1/initialIonoVar)*w` of the owning satellite, the
tropospheric row `1/initialTropVar`; otherwise the same unscaled values
are used.  Off-diagonal entries keep their zero initialisation. -/
def rMatrixPPP (n imax : ℕ) (wMap : ℕ → Option ℚ) (ionoVar tropVar : ℚ)
    (r c : ℕ) : ℚ :=
  if r = c then
    (if (List.range n).countP (fun i => (wMap i).isSome) = n then
      (if r < n then 11.111111 * (wMap r).getD 0
       else if r < 2 * n then 11.111111 * (wMap (r - n)).getD 0
       else if r < 3 * n then 111111.11 * (wMap (r - 2 * n)).getD 0
       else if r < 4 * n then 111111.11 * (wMap (r - 3 * n)).getD 0
       else if r = 5 * n - 1 then 1 / tropVar
       else if r < 4 * n + numIonoRows n imax then
         1 / ionoVar * (wMap (nonRefSat imax (r - 4 * n))).getD 0
       else 0)
     else
      (if r < 2 * n then 11.111111
       else if r < 4 * n then 111111.11
       else if r = 5 * n - 1 then 1 / tropVar
       else if r < 4 * n + numIonoRows n imax then 1 / ionoVar
       else 0))
  else 0

/-- The design matrix assembled by `SolverPPPUC::preCompute`
(lines 441-517): each observation row carries the core partials `dM` in
the first `nv` columns and the fixed frequency-combination coefficients
in the per-satellite ionosphere/ambiguity columns; one single-difference
ionospheric constraint row per non-reference satellite; the tropospheric
row sets coefficient 1.0 on column 0, written last. -/
def hMatrixPPP (n nv : ℕ) (dM : ℕ → ℕ → ℚ) (imax : ℕ) (r c : ℕ) : ℚ :=
  if r = 5 * n - 1 ∧ c = 0 then 1
  else if r < n then
    (if c < nv then dM r c else if c = nv + r then 1 else 0)
  else if r < 2 * n then
    (if c < nv then dM (r - n) c
     else if c = nv + (r - n) then 1.646944444 else 0)
  else if r < 3 * n then
    (if c < nv then dM (r - 2 * n) c
     else if c = nv + (r - 2 * n) then -1
     else if c = nv + n + (r - 2 * n) then 0.190293672798 else 0)
  else if r < 4 * n then
    (if c < nv then dM (r - 3 * n) c
     else if c = nv + (r - 3 * n) then -1.646944444
     else if c = nv + 2 * n + (r - 3 * n) then 0.244210213425 else 0)
  else if r < 4 * n + numIonoRows n imax then
    (if c = nv + nonRefSat imax (r - 4 * n) then 1
     else if c = nv + imax then -1 else 0)
  else 0

/-- C6: for every epoch with `n ≥ 4` tracked satellites (and a reference
index in range) the assembled system has `4n` observation rows plus
`n - 1` ionospheric constraint rows plus one tropospheric constraint row,
`5n` rows in total, and the unknown count equals the core
(source-indexed) variable count plus `3n`. -/
theorem claim6_system_dimensions (n nv imax : ℕ) (hn : 4 ≤ n)
    (himax : imax < n) :
    numMeasPPP n = 4 * n + numIonoRows n imax + 1 ∧
    numMeasPPP n = 5 * n ∧
    numIonoRows n imax = n - 1 ∧
    numUnknownsPPP nv n = nv + 3 * n := by
  unfold numMeasPPP numIonoRows numUnknownsPPP
  rw [if_pos himax]
  refine ⟨?_, ?_, ?_, ?_⟩ <;> omega

/-- Witness for C6: five satellites give 25 rows and, with 7 core
variables, 22 unknowns. -/
theorem claim6_system_dimensions_witness :
    numMeasPPP 5 = 25 ∧ numUnknownsPPP 7 5 = 22 := by
  have h := claim6_system_dimensions 5 7 0 (by norm_num) (by norm_num)
  constructor
  · rw [h.2.1]
  · rw [h.2.2.2]


/-- Invariant of the reference-satellite scan: after scanning `n`
satellites the running pair is either the untouched start state (no
positive elevation seen) or the index of a satellite attaining the
running maximum elevation. -/
theorem findImax_spec (imax0 : ℕ) (elev : ℕ → ℚ) (n : ℕ) :
    (findImax imax0 elev n = (imax0, 0) ∧ ∀ i, i < n → elev i ≤ 0) ∨
    ((findImax imax0 elev n).1 < n ∧
      (findImax imax0 elev n).2 = elev (findImax imax0 elev n).1 ∧
      0 < (findImax imax0 elev n).2 ∧
      ∀ i, i < n → elev i ≤ (findImax imax0 elev n).2) := by
  induction n with
  | zero => exact Or.inl ⟨rfl, fun i hi => absurd hi (Nat.not_lt_zero i)⟩
  | succ m ih =>
    have hstep : findImax imax0 elev (m + 1) =
        (if (findImax imax0 elev m).2 < elev m then (m, elev m)
         else findImax imax0 elev m) := by
      unfold findImax
      rw [List.range_succ, List.foldl_append, List.foldl_cons, List.foldl_nil]
    by_cases hc : (findImax imax0 elev m).2 < elev m
    · right
      rw [hstep, if_pos hc]
      cases ih with
      | inl h =>
        have h0 : (findImax imax0 elev m).2 = 0 := by rw [h.1]
        refine ⟨by omega, rfl, by rw [← h0]; exact hc, ?_⟩
        intro i hi
        rcases Nat.lt_succ_iff_lt_or_eq.mp hi with hlt | heq
        · exact le_of_lt (lt_of_le_of_lt (h.2 i hlt) (h0 ▸ hc))
        · subst heq; exact le_refl _
      | inr h =>
        refine ⟨by omega, rfl, lt_trans h.2.2.1 hc, ?_⟩
        intro i hi
        rcases Nat.lt_succ_iff_lt_or_eq.mp hi with hlt | heq
        · exact le_of_lt (lt_of_le_of_lt (h.2.2.2 i hlt) hc)
        · subst heq; exact le_refl _
    · rw [hstep, if_neg hc]
      cases ih with
      | inl h =>
        left
        refine ⟨h.1, ?_⟩
        intro i hi
        rcases Nat.lt_succ_iff_lt_or_eq.mp hi with hlt | heq
        · exact h.2 i hlt
        · have h0 : (findImax imax0 elev m).2 = 0 := by rw [h.1]
          rw [heq, ← h0]
          exact le_of_not_lt hc
      | inr h =>
        right
        refine ⟨by omega, h.2.1, h.2.2.1, ?_⟩
        intro i hi
        rcases Nat.lt_succ_iff_lt_or_eq.mp hi with hlt | heq
        · exact h.2.2.2 i hlt
        · subst heq; exact le_of_not_lt hc

/-- Inverting the skip map: the constraint-row counter of a
non-reference satellite maps back to that satellite. -/
theorem nonRefSat_inv (imax i : ℕ) (hne : i ≠ imax) :
    nonRefSat imax (if i < imax then i else i - 1) = i := by
  unfold nonRefSat
  by_cases h : i < imax
  · simp only [if_pos h, if_pos h]
  · rw [if_neg h]
    have h2 : ¬ (i - 1 < imax) := by omega
    rw [if_neg h2]
    omega

/-- C7: whenever at least one satellite has positive elevation, the
reference satellite returned by the scan attains the maximum elevation,
and each non-reference satellite `i` gets exactly one single-difference
ionospheric constraint row, at row `4n + c` with `c` its position among
the non-reference satellites: prefit equal to its a-priori ionospheric
delay minus that of the reference satellite, coefficient +1.0 on its
ionosphere column, -1.0 on the reference ionosphere column and 0 in every
other column. -/
theorem claim7_reference_satellite_and_iono_rows
    (n nv imax0 : ℕ) (elev iono pC pP2 pL1 pL2 : ℕ → ℚ) (trop : ℚ)
    (dM : ℕ → ℕ → ℚ) (hn : 4 ≤ n)
    (hpos : ∃ i, i < n ∧ 0 < elev i) :
    (findImax imax0 elev n).1 < n ∧
    (∀ i, i < n → elev i ≤ elev (findImax imax0 elev n).1) ∧
    (∀ i, i < n → i ≠ (findImax imax0 elev n).1 →
      measVectorPPP n pC pP2 pL1 pL2 iono (findImax imax0 elev n).1 trop
          (4 * n + (if i < (findImax imax0 elev n).1 then i else i - 1)) =
        iono i - iono (findImax imax0 elev n).1 ∧
      hMatrixPPP n nv dM (findImax imax0 elev n).1
          (4 * n + (if i < (findImax imax0 elev n).1 then i else i - 1))
          (nv + i) = 1 ∧
      hMatrixPPP n nv dM (findImax imax0 elev n).1
          (4 * n + (if i < (findImax imax0 elev n).1 then i else i - 1))
          (nv + (findImax imax0 elev n).1) = -1 ∧
      (∀ c, c < numUnknownsPPP nv n → c ≠ nv + i →
        c ≠ nv + (findImax imax0 elev n).1 →
        hMatrixPPP n nv dM (findImax imax0 elev n).1
          (4 * n + (if i < (findImax imax0 elev n).1 then i else i - 1))
          c = 0)) := by
  obtain ⟨w, hwn, hwpos⟩ := hpos
  have hspec := findImax_spec imax0 elev n
  have hmax : (findImax imax0 elev n).1 < n ∧
      ∀ i, i < n → elev i ≤ elev (findImax imax0 elev n).1 := by
    cases hspec with
    | inl h => exact absurd (h.2 w hwn) (by exact not_le.mpr hwpos)
    | inr h => exact ⟨h.1, fun i hi => h.2.1 ▸ h.2.2.2 i hi⟩
  refine ⟨hmax.1, hmax.2, ?_⟩
  intro i hi hne
  have himax : (findImax imax0 elev n).1 < n := hmax.1
  set im := (findImax imax0 elev n).1 with him
  have hclt : (if i < im then i else i - 1) ≤ n - 2 := by
    split_ifs with h <;> omega
  have hrow1 : ¬ (4 * n + (if i < im then i else i - 1) < n) := by omega
  have hrow2 : ¬ (4 * n + (if i < im then i else i - 1) < 2 * n) := by omega
  have hrow3 : ¬ (4 * n + (if i < im then i else i - 1) < 3 * n) := by omega
  have hrow4 : ¬ (4 * n + (if i < im then i else i - 1) < 4 * n) := by omega
  have hrow5 : ¬ (4 * n + (if i < im then i else i - 1) = 5 * n - 1) := by
    omega
  have hrow6 : 4 * n + (if i < im then i else i - 1) <
      4 * n + numIonoRows n im := by
    unfold numIonoRows
    rw [if_pos himax]
    omega
  have hsub : 4 * n + (if i < im then i else i - 1) - 4 * n =
      (if i < im then i else i - 1) := by omega
  have hinv : nonRefSat im (4 * n + (if i < im then i else i - 1) - 4 * n)
      = i := by
    rw [hsub]
    exact nonRefSat_inv im i hne
  refine ⟨?_, ?_, ?_, ?_⟩
  · unfold measVectorPPP
    rw [if_neg hrow1, if_neg hrow2, if_neg hrow3, if_neg hrow4,
      if_neg hrow5, if_pos hrow6, hinv]
  · unfold hMatrixPPP
    rw [if_neg (by intro hand; exact hrow5 hand.1), if_neg hrow1,
      if_neg hrow2, if_neg hrow3, if_neg hrow4, if_pos hrow6, hinv,
      if_pos rfl]
  · unfold hMatrixPPP
    rw [if_neg (by intro hand; exact hrow5 hand.1), if_neg hrow1,
      if_neg hrow2, if_neg hrow3, if_neg hrow4, if_pos hrow6, hinv]
    have hii : ¬ (nv + im = nv + i) := by omega
    rw [if_neg hii, if_pos rfl]
  · intro c hc hci hcim
    unfold hMatrixPPP
    rw [if_neg (by intro hand; exact hrow5 hand.1), if_neg hrow1,
      if_neg hrow2, if_neg hrow3, if_neg hrow4, if_pos hrow6, hinv,
      if_neg (by omega), if_neg (by omega)]


/-- Witness for C7: four satellites with elevations 0, 1, 2, 3 select
satellite 3 as reference; non-reference satellite 0 gets constraint row
16 with prefit 0·10 − 3·10 = −30, coefficient +1 on its ionosphere
column 5, −1 on the reference column 8 and 0 elsewhere (column 6). -/
theorem claim7_reference_satellite_and_iono_rows_witness :
    (findImax 0 (fun i => (i : ℚ)) 4).1 = 3 ∧
    measVectorPPP 4 (fun _ => 0) (fun _ => 0) (fun _ => 0) (fun _ => 0)
      (fun i => (i : ℚ) * 10) 3 0 16 = -30 ∧
    hMatrixPPP 4 5 (fun _ _ => 0) 3 16 5 = 1 ∧
    hMatrixPPP 4 5 (fun _ _ => 0) 3 16 8 = -1 ∧
    hMatrixPPP 4 5 (fun _ _ => 0) 3 16 6 = 0 := by
  have him : (findImax 0 (fun i => (i : ℚ)) 4).1 = 3 := by decide
  have h := claim7_reference_satellite_and_iono_rows 4 5 0
      (fun i => (i : ℚ)) (fun i => (i : ℚ) * 10) (fun _ => 0) (fun _ => 0)
      (fun _ => 0) (fun _ => 0) 0 (fun _ _ => 0) (by norm_num)
      ⟨3, by norm_num, by norm_num⟩
  have h3 := h.2.2 0 (by norm_num) (by rw [him]; norm_num)
  rw [him] at h3
  norm_num at h3
  refine ⟨him, h3.1, h3.2.1, h3.2.2.1, ?_⟩
  exact h3.2.2.2 6 (by norm_num [numUnknownsPPP]) (by norm_num)
    (by norm_num)


/-- C9 (amended): the assembled weight matrix is diagonal; without a full
set of per-satellite weights every code row weighs 11.111111 (the code
literal for 1/(0.3 m)²) and every phase row 111111.11, each ionospheric
constraint row weighs 1/initialIonoVar and the tropospheric row
1/initialTropVar; when every tracked satellite supplies a weight, the
code, phase and ionospheric rows are additionally scaled by the owning
satellite weight factor while the tropospheric row stays unscaled. -/
theorem claim9_weight_matrix
    (n imax : ℕ) (wMap : ℕ → Option ℚ) (ionoVar tropVar : ℚ)
    (hn : 4 ≤ n) (himax : imax < n) :
    (∀ r c, r ≠ c → rMatrixPPP n imax wMap ionoVar tropVar r c = 0) ∧
    ((∃ i, i < n ∧ wMap i = none) →
      (∀ i, i < n →
        rMatrixPPP n imax wMap ionoVar tropVar i i = 11.111111 ∧
        rMatrixPPP n imax wMap ionoVar tropVar (i + n) (i + n) =
          11.111111 ∧
        rMatrixPPP n imax wMap ionoVar tropVar (i + 2 * n) (i + 2 * n) =
          111111.11 ∧
        rMatrixPPP n imax wMap ionoVar tropVar (i + 3 * n) (i + 3 * n) =
          111111.11) ∧
      (∀ c, c < n - 1 →
        rMatrixPPP n imax wMap ionoVar tropVar (4 * n + c) (4 * n + c) =
          1 / ionoVar) ∧
      rMatrixPPP n imax wMap ionoVar tropVar (5 * n - 1) (5 * n - 1) =
        1 / tropVar) ∧
    ((∀ i, i < n → (wMap i).isSome) →
      (∀ i, i < n →
        rMatrixPPP n imax wMap ionoVar tropVar i i =
          11.111111 * (wMap i).getD 0 ∧
        rMatrixPPP n imax wMap ionoVar tropVar (i + n) (i + n) =
          11.111111 * (wMap i).getD 0 ∧
        rMatrixPPP n imax wMap ionoVar tropVar (i + 2 * n) (i + 2 * n) =
          111111.11 * (wMap i).getD 0 ∧
        rMatrixPPP n imax wMap ionoVar tropVar (i + 3 * n) (i + 3 * n) =
          111111.11 * (wMap i).getD 0) ∧
      (∀ c, c < n - 1 →
        rMatrixPPP n imax wMap ionoVar tropVar (4 * n + c) (4 * n + c) =
          1 / ionoVar * (wMap (nonRefSat imax c)).getD 0) ∧
      rMatrixPPP n imax wMap ionoVar tropVar (5 * n - 1) (5 * n - 1) =
        1 / tropVar) := by
  refine ⟨?_, ?_, ?_⟩
  · intro r c hrc
    unfold rMatrixPPP
    rw [if_neg hrc]
  · intro hmiss
    obtain ⟨i0, hi0, hw0⟩ := hmiss
    have hcnt : ¬ ((List.range n).countP (fun i => (wMap i).isSome) = n) := by
      intro hcp
      have hall : ∀ a ∈ List.range n, ((wMap a).isSome) := by
        apply List.countP_eq_length.mp
        rw [List.length_range]
        exact hcp
      have h2 := hall i0 (List.mem_range.mpr hi0)
      rw [hw0] at h2
      simp at h2
    refine ⟨?_, ?_, ?_⟩
    · intro i hi
      refine ⟨?_, ?_, ?_, ?_⟩ <;>
        · unfold rMatrixPPP numIonoRows
          rw [if_pos rfl, if_neg hcnt]
          split_ifs <;> first | rfl | omega
    · intro c hc
      unfold rMatrixPPP numIonoRows
      rw [if_pos rfl, if_neg hcnt]
      split_ifs <;> first | rfl | omega
    · unfold rMatrixPPP numIonoRows
      rw [if_pos rfl, if_neg hcnt]
      split_ifs <;> first | rfl | omega
  · intro hall
    have hcnt : (List.range n).countP (fun i => (wMap i).isSome) = n := by
      nth_rewrite 2 [show n = (List.range n).length from
        (List.length_range n).symm]
      apply List.countP_eq_length.mpr
      intro a ha
      exact hall a (List.mem_range.mp ha)
    refine ⟨?_, ?_, ?_⟩
    · intro i hi
      refine ⟨?_, ?_, ?_, ?_⟩ <;>
        · unfold rMatrixPPP numIonoRows
          rw [if_pos rfl, if_pos hcnt]
          split_ifs <;>
            first | rfl | omega | (rw [Nat.add_sub_cancel])
    · intro c hc
      unfold rMatrixPPP numIonoRows
      rw [if_pos rfl, if_pos hcnt]
      split_ifs <;>
        first | rfl | omega | (rw [Nat.add_sub_cancel_left])
    · unfold rMatrixPPP numIonoRows
      rw [if_pos rfl, if_pos hcnt]
      split_ifs <;> first | rfl | omega


/-- Counterexample to C9 as stated: with every satellite supplying weight
factor 2, the ionospheric constraint row 16 of a 4-satellite epoch
carries weight (1/ionoVar)·2, not the claimed unscaled 1/ionoVar. -/
theorem claim9_weight_matrix_counterexample :
    rMatrixPPP 4 0 (fun _ => some 2) (10 ^ 9) (10 ^ 9) 16 16 =
      1 / 10 ^ 9 * 2 ∧
    ¬ (rMatrixPPP 4 0 (fun _ => some 2) (10 ^ 9) (10 ^ 9) 16 16 =
      1 / 10 ^ 9) := by
  have hr : List.range 4 = [0, 1, 2, 3] := rfl
  constructor
  · norm_num [rMatrixPPP, numIonoRows, nonRefSat, hr]
  · norm_num [rMatrixPPP, numIonoRows, nonRefSat, hr]

/-- Witness for C9: in an unweighted 4-satellite epoch, the code row 0
weighs 11.111111, the phase row 8 weighs 111111.11, off-diagonal (0,1)
is 0, the ionospheric row 16 weighs 1/1e9 and the tropospheric row 19
weighs 1/1e9. -/
theorem claim9_weight_matrix_witness :
    rMatrixPPP 4 0 (fun _ => none) (10 ^ 9) (10 ^ 9) 0 1 = 0 ∧
    rMatrixPPP 4 0 (fun _ => none) (10 ^ 9) (10 ^ 9) 0 0 = 11.111111 ∧
    rMatrixPPP 4 0 (fun _ => none) (10 ^ 9) (10 ^ 9) 8 8 = 111111.11 ∧
    rMatrixPPP 4 0 (fun _ => none) (10 ^ 9) (10 ^ 9) 16 16 = 1 / 10 ^ 9 ∧
    rMatrixPPP 4 0 (fun _ => none) (10 ^ 9) (10 ^ 9) 19 19 = 1 / 10 ^ 9 := by
  have h := claim9_weight_matrix 4 0 (fun _ => none) (10 ^ 9) (10 ^ 9)
      (by norm_num) (by norm_num)
  have hm := h.2.1 ⟨0, by norm_num, rfl⟩
  refine ⟨h.1 0 1 (by norm_num), ?_, ?_, ?_, ?_⟩
  · simpa using (hm.1 0 (by norm_num)).1
  · simpa using (hm.1 0 (by norm_num)).2.2.1
  · simpa using hm.2.1 0 (by norm_num)
  · simpa using hm.2.2

/-- C10: when the per-satellite weight field is present for some but not
all tracked satellites, the equation assembly ignores every supplied
weight — its weight matrix coincides entry by entry with the one built
with no weights at all. -/
theorem claim10_weights_all_or_nothing
    (n imax : ℕ) (wMap : ℕ → Option ℚ) (ionoVar tropVar : ℚ)
    (hn : 0 < n) (hmiss : ∃ i, i < n ∧ wMap i = none) :
    ∀ r c, rMatrixPPP n imax wMap ionoVar tropVar r c =
      rMatrixPPP n imax (fun _ => none) ionoVar tropVar r c := by
  obtain ⟨i0, hi0, hw0⟩ := hmiss
  have hcnt : ¬ ((List.range n).countP (fun i => (wMap i).isSome) = n) := by
    intro hcp
    have hall : ∀ a ∈ List.range n, ((wMap a).isSome) := by
      apply List.countP_eq_length.mp
      rw [List.length_range]
      exact hcp
    have h2 := hall i0 (List.mem_range.mpr hi0)
    rw [hw0] at h2
    simp at h2
  have hz : ((List.range n).countP
      (fun i => ((fun _ => (none : Option ℚ)) i).isSome)) = 0 := by
    apply List.countP_eq_zero.mpr
    intro a _
    simp
  have hzn : ¬ (((List.range n).countP
      (fun i => ((fun _ => (none : Option ℚ)) i).isSome)) = n) := by
    rw [hz]
    omega
  intro r c
  unfold rMatrixPPP
  by_cases hrc : r = c
  · rw [if_pos hrc, if_pos hrc, if_neg hcnt, if_neg hzn]
  · rw [if_neg hrc, if_neg hrc]

/-- Witness for C10: with satellite 0 lacking a weight and the others
carrying weight 2, the assembled weight matrix equals the unweighted one,
and the code row 1 weighs the unscaled 11.111111. -/
theorem claim10_weights_all_or_nothing_witness :
    rMatrixPPP 4 0 (fun i => if i = 0 then none else some 2) (10 ^ 9)
        (10 ^ 9) 1 1 =
      rMatrixPPP 4 0 (fun _ => none) (10 ^ 9) (10 ^ 9) 1 1 ∧
    rMatrixPPP 4 0 (fun i => if i = 0 then none else some 2) (10 ^ 9)
        (10 ^ 9) 1 1 = 11.111111 := by
  constructor
  · exact claim10_weights_all_or_nothing 4 0
      (fun i => if i = 0 then none else some 2) (10 ^ 9) (10 ^ 9)
      (by norm_num) ⟨0, by norm_num, rfl⟩ 1 1
  · have hr : List.range 4 = [0, 1, 2, 3] := rfl
    norm_num [rMatrixPPP, numIonoRows, nonRefSat, hr]


/-- Typed error raised by `SolverPPPUC::preCompute` when fewer than 4
satellites are tracked (`SVNumException`, SolverPPPUC.cpp
lines 250-258). -/
inductive PPPErr where
  | svNumException
deriving DecidableEq

/-- The source-indexed unknown types of `SolverPPPUC::setNEU`
(lines 1186-1229), as numeric TypeID codes in the order the comments of
the C++ code prescribe for the underlying ordered set: wetMap (1) first,
then the coordinates — dLat/dLon/dH (2,3,4) with NEU, dx/dy/dz (5,6,7)
otherwise, omitted entirely when the coordinates are held fixed — and
the receiver clock cdt (8) last. -/
def srcIndexedTypesPPP (useNEU fixCoordinate : Bool) : List ℕ :=
  [1] ++
    (if fixCoordinate then []
     else if useNEU then [2, 3, 4] else [5, 6, 7]) ++ [8]

/-- The satellite-indexed unknown types of `SolverPPPUC::setNEU`
(lines 1219-1221): ionoL1 (9), BL1 (10), BL2 (11), in set order. -/
def satIndexedTypesPPP : List ℕ := [9, 10, 11]

/-- The unknown-building loops of `SolverPPPUC::preCompute`
(lines 222-244): one Variable per satellite-indexed type and tracked
satellite.  The `Variable(type)` constructor leaves the defaults
sourceIndexed = true, satIndexed = false, typeIndexed = true and initial
variance 1.0e10 (Variable.hpp lines 75-83) and `setSatellite` stamps the
satellite.  Modelled from the spec for the traversal order of the
underlying `std::set` (Variable.cpp is not under src/): type-major,
satellite-minor, as the comments and the column layout of the C++ code
assume. -/
def buildVarUnknowns (sats : List ℕ) : List Variable :=
  (satIndexedTypesPPP.map (fun t =>
    sats.map (fun s2 => Variable.mk ⟨t, 0, s2, true, false, true⟩
      ((10 : ℚ) ^ 10)))).flatten

/-- One entry of the `SolverPPPUC` covariance map: the satellite-indexed
covariances (`satIndexedVarCov`) and the TypeID-keyed source-indexed
covariances (`srcIndexedVarCov`) of one Variable. -/
structure UCCovEntry where
  satIndexedVarCov : List (VarId × ℚ)
  srcIndexedVarCov : List (ℕ × ℚ)

/-- Double map access `covarianceMap[a].satIndexedVarCov[b]` as read by
`SolverPPPUC::preCompute` (lines 737-748): absent keys default to
`0.0`. -/
def ucSatCovLookup (cm : List (VarId × UCCovEntry)) (a b : VarId) : ℚ :=
  match mapLookup cm a with
  | some e => (mapLookup e.satIndexedVarCov b).getD 0
  | none => 0

/-- Map access `covarianceMap[a].srcIndexedVarCov[t]` as read by
`SolverPPPUC::preCompute` (lines 755-765): absent keys default to
`0.0`. -/
def ucSrcCovLookup (cm : List (VarId × UCCovEntry)) (a : VarId)
    (t : ℕ) : ℚ :=
  match mapLookup cm a with
  | some e => (mapLookup e.srcIndexedVarCov t).getD 0
  | none => 0

/-- The state rebuild of the non-first-epoch branch of
`SolverPPPUC::preCompute` (lines 683-705): the first `nv` entries copy
`solution` by position, the satellite-indexed entries come from
`stateMap` keyed by Variable identity, with `std::map::operator[]`
yielding `0.0` for an absent key. -/
def ucCarryState (nv : ℕ) (sol : ℕ → ℚ) (sm : List (VarId × ℚ))
    (vars : List Variable) (i : ℕ) : ℚ :=
  if i < nv then sol i
  else
    match vars[i - nv]? with
    | some v => (mapLookup sm v.id).getD 0
    | none => 0

/-- The covariance rebuild of the non-first-epoch branch of
`SolverPPPUC::preCompute` (lines 687-769): the upper-left `nv × nv`
block copies `covMatrix` by position; a satellite-indexed diagonal entry
comes from `covarianceMap` when its Variable is a key there and from
`getInitialVariance()` otherwise; satellite × satellite and satellite ×
source blocks read the stored maps with `0.0` defaults, mirrored across
the diagonal. -/
def ucCarryCov (nv : ℕ) (covM : ℕ → ℕ → ℚ)
    (cm : List (VarId × UCCovEntry)) (srcTypes : List ℕ)
    (vars : List Variable) (i j : ℕ) : ℚ :=
  if i < nv then
    (if j < nv then covM i j
     else
       match vars[j - nv]? with
       | some v => ucSrcCovLookup cm v.id ((srcTypes[i]?).getD 0)
       | none => 0)
  else
    match vars[i - nv]? with
    | some vi =>
      if j < nv then ucSrcCovLookup cm vi.id ((srcTypes[j]?).getD 0)
      else if i = j then
        (match mapLookup cm vi.id with
         | some e => (mapLookup e.satIndexedVarCov vi.id).getD 0
         | none => vi.initialVariance)
      else
        match vars[j - nv]? with
        | some vj =>
            if i < j then ucSatCovLookup cm vi.id vj.id
            else ucSatCovLookup cm vj.id vi.id
        | none => 0
    | none => 0

/-- The first-epoch initial covariance of `SolverPPPUC::preCompute`
(lines 628-667): (0.5 m)² for the wet troposphere and (when estimated)
the coordinates, 9.0e10 for the receiver clock, (50 m)² for the
ionospheric delays and 4.0e14 for the ambiguities. -/
def initialCovPPP (fixCoordinate : Bool) (nv n : ℕ) (i j : ℕ) : ℚ :=
  if i = j then
    (if i = 0 then 0.25
     else if ¬ fixCoordinate ∧ 1 ≤ i ∧ i < 4 then 0.25
     else if (¬ fixCoordinate ∧ i = 4) ∨ (fixCoordinate ∧ i = 1) then
       (9 : ℚ) * 10 ^ 10
     else if nv ≤ i ∧ i < nv + n then 2500
     else if nv + n ≤ i ∧ i < nv + 3 * n then (4 : ℚ) * 10 ^ 14
     else 0)
  else 0

/-- Per-epoch inputs of `SolverPPPUC::preCompute`: satellite count,
prefit residuals per observable, a-priori ionospheric delays, elevations,
the a-priori zenith wet delay, optional per-satellite weights, the core
partial-derivative rows, and the diagonal transition/process-noise
values.  The last two are modelled from the spec as the outputs of the
stochastic-model collaborators (StochasticModel2, not under src/). -/
structure UCInput where
  numSats : ℕ
  prefitC : ℕ → ℚ
  prefitP2 : ℕ → ℚ
  prefitL1 : ℕ → ℚ
  prefitL2 : ℕ → ℚ
  ionoL1 : ℕ → ℚ
  elev : ℕ → ℚ
  zwd : ℚ
  weight : ℕ → Option ℚ
  dMatrix : ℕ → ℕ → ℚ
  phiDiag : ℕ → ℚ
  qDiag : ℕ → ℚ

/-- Mutable members of `SolverPPPUC` touched by `preCompute`. -/
structure UCState where
  firstTime : Bool
  xhat : ℕ → ℚ
  P : ℕ → ℕ → ℚ
  solution : ℕ → ℚ
  covMatrix : ℕ → ℕ → ℚ
  stateMap : List (VarId × ℚ)
  covarianceMap : List (VarId × UCCovEntry)
  varUnknowns : List Variable
  numCurrentSV : ℕ
  measVector : ℕ → ℚ
  hMatrix : ℕ → ℕ → ℚ
  rMatrix : ℕ → ℕ → ℚ
  phiMatrixDiag : ℕ → ℚ
  qMatrixDiag : ℕ → ℚ

/-- `SolverPPPUC::preCompute` (SolverPPPUC.cpp lines 209-798).  It
rebuilds `varUnknowns` and stores the satellite count, then throws
`SVNumException` when fewer than 4 satellites are tracked — before any
filter quantity is touched.  Otherwise it assembles the measurement
vector, weight matrix and design matrix, loads the transition and noise
diagonals, and feeds the filter: on the first epoch the static a-priori
state/covariance, afterwards the Variable-keyed carry-forward of the
previous posterior.  `imax0` stands for the uninitialised reference
index and `ionoVar`/`tropVar` for the `initialIonoVar`/`initialTropVar`
members (1.0E+9 by default). -/
def preComputePPP (useNEU fixCoordinate : Bool) (sats : List ℕ)
    (imax0 : ℕ) (ionoVar tropVar : ℚ) (inp : UCInput) (s : UCState) :
    UCState × Option PPPErr :=
  let varUnknowns := buildVarUnknowns sats
  let n := inp.numSats
  let s1 := { s with varUnknowns := varUnknowns, numCurrentSV := n }
  if n < 4 then (s1, some PPPErr.svNumException)
  else
    let srcTypes := srcIndexedTypesPPP useNEU fixCoordinate
    let nv := srcTypes.length
    let imax := (findImax imax0 inp.elev n).1
    let xP :=
      if s1.firstTime then
        ((fun _ => (0 : ℚ)), initialCovPPP fixCoordinate nv n)
      else
        (ucCarryState nv s1.solution s1.stateMap varUnknowns,
         ucCarryCov nv s1.covMatrix s1.covarianceMap srcTypes varUnknowns)
    ({ s1 with
        measVector := measVectorPPP n inp.prefitC inp.prefitP2
          inp.prefitL1 inp.prefitL2 inp.ionoL1 imax inp.zwd
        rMatrix := rMatrixPPP n imax inp.weight ionoVar tropVar
        hMatrix := hMatrixPPP n nv inp.dMatrix imax
        phiMatrixDiag := inp.phiDiag
        qMatrixDiag := inp.qDiag
        xhat := xP.1
        P := xP.2
        firstTime := false }, none)

/-- C8: tracking fewer than 4 satellites makes `preCompute` raise the
`SVNumException` before any filter computation; the state vector, the
covariance matrix, and every other filter member except the rebuilt
unknown list and the stored satellite count are identical before and
after the failed call. -/
theorem claim8_insufficient_geometry
    (useNEU fixCoordinate : Bool) (sats : List ℕ) (imax0 : ℕ)
    (ionoVar tropVar : ℚ) (inp : UCInput) (s : UCState)
    (hn : inp.numSats < 4) :
    (preComputePPP useNEU fixCoordinate sats imax0 ionoVar tropVar
        inp s).2 = some PPPErr.svNumException ∧
    (preComputePPP useNEU fixCoordinate sats imax0 ionoVar tropVar
        inp s).1.xhat = s.xhat ∧
    (preComputePPP useNEU fixCoordinate sats imax0 ionoVar tropVar
        inp s).1.P = s.P ∧
    (preComputePPP useNEU fixCoordinate sats imax0 ionoVar tropVar
        inp s).1.solution = s.solution ∧
    (preComputePPP useNEU fixCoordinate sats imax0 ionoVar tropVar
        inp s).1.covMatrix = s.covMatrix ∧
    (preComputePPP useNEU fixCoordinate sats imax0 ionoVar tropVar
        inp s).1.stateMap = s.stateMap ∧
    (preComputePPP useNEU fixCoordinate sats imax0 ionoVar tropVar
        inp s).1.covarianceMap = s.covarianceMap ∧
    (preComputePPP useNEU fixCoordinate sats imax0 ionoVar tropVar
        inp s).1.measVector = s.measVector ∧
    (preComputePPP useNEU fixCoordinate sats imax0 ionoVar tropVar
        inp s).1.hMatrix = s.hMatrix ∧
    (preComputePPP useNEU fixCoordinate sats imax0 ionoVar tropVar
        inp s).1.rMatrix = s.rMatrix ∧
    (preComputePPP useNEU fixCoordinate sats imax0 ionoVar tropVar
        inp s).1.firstTime = s.firstTime := by
  unfold preComputePPP
  rw [if_pos hn]
  exact ⟨rfl, rfl, rfl, rfl, rfl, rfl, rfl, rfl, rfl, rfl, rfl⟩

/-- Concrete three-satellite epoch input for the C8 witness. -/
def exInput3 : UCInput :=
  ⟨3, fun _ => 0, fun _ => 0, fun _ => 0, fun _ => 0, fun _ => 0,
    fun _ => 0, 0, fun _ => none, fun _ _ => 0, fun _ => 1, fun _ => 0⟩

/-- Concrete solver state for the C8 witness. -/
def exUCState : UCState :=
  ⟨false, fun _ => 7, fun _ _ => 8, fun _ => 7, fun _ _ => 8, [], [],
    [], 5, fun _ => 0, fun _ _ => 0, fun _ _ => 0, fun _ => 1,
    fun _ => 0⟩

/-- Witness for C8: a concrete three-satellite call raises
`SVNumException` and leaves state and covariance untouched. -/
theorem claim8_insufficient_geometry_witness :
    (preComputePPP true false [1, 2, 3] 0 (10 ^ 9) (10 ^ 9) exInput3
        exUCState).2 = some PPPErr.svNumException ∧
    (preComputePPP true false [1, 2, 3] 0 (10 ^ 9) (10 ^ 9) exInput3
        exUCState).1.xhat = exUCState.xhat ∧
    (preComputePPP true false [1, 2, 3] 0 (10 ^ 9) (10 ^ 9) exInput3
        exUCState).1.P = exUCState.P := by
  have h := claim8_insufficient_geometry true false [1, 2, 3] 0
      (10 ^ 9) (10 ^ 9) exInput3 exUCState (by decide)
  exact ⟨h.1, h.2.1, h.2.2.1⟩

end Rocket
